import Mathlib

/-!
Verification development for the query-classification, consistency-scoring and
list-view-registry core of schema-sheets-cli.

The JavaScript sources embedded here:
* `src/sheets/sheet-operations.mjs`: `analyzeListViewQuery`, `saveQuery`,
  `checkExistingListView`, `getListViewQuery`
* `src/utils/display.mjs`: `applyListViewQuery`, `analyzeQueryResults`
* `src/menus/row-menu.mjs`: `showSetListView`

Modelling conventions:
* JS strings are `String`/`List Char`; the character-by-character loops of the
  source are structural recursions over `List Char`.
* JS numbers used as counters/depths are `Int`.  The two floating-point
  computations of `analyzeQueryResults` are modelled exactly:
  the comparison `consistencyRatio < 0.8` as `5 * c < 4 * n`, which the
  program's double comparison decides identically for every array a JS
  program can hold (array lengths are below `2 ^ 32`), and
  `Math.round(consistencyRatio * 100)` by `roundPercent`, an exact model of
  the binary64 computation — correctly rounded division and multiplication
  (round to nearest, ties to even) followed by `Math.round`'s
  nearest-integer, ties-up rule — which reproduces the printed percentage
  bit-for-bit in the same range.
* JSON values are the inductive `Json`; a JS value that is `null`-or-failed is
  an `Option`.
* Asynchronous store calls that can reject are `Except String` values supplied
  as inputs to the embedded functions.
* Console warnings are collected in an output list of strings; interactive
  confirmation answers are Boolean inputs.
-/

namespace SchemaSheets

/-- Left brace character, kept as a named constant. -/
def lbrace : Char := Char.ofNat 123

/-- Right brace character, kept as a named constant. -/
def rbrace : Char := Char.ofNat 125

/-- Double-quote character. -/
def dquote : Char := Char.ofNat 34

/-- Single-quote character. -/
def squote : Char := Char.ofNat 39

/-- Backslash character. -/
def backslash : Char := Char.ofNat 92

/-- Tab character. -/
def tabChar : Char := Char.ofNat 9

/-- Newline character. -/
def nlChar : Char := Char.ofNat 10

/-- Carriage-return character. -/
def crChar : Char := Char.ofNat 13

/-- The whitespace characters removed by `String.prototype.trim` that occur in
the ASCII inputs this development deals with. -/
def isWSChar (c : Char) : Bool := c = ' ' ∨ c = tabChar ∨ c = nlChar ∨ c = crChar

/-- JS `s.trim()` on a character list: drop whitespace from both ends. -/
def trimChars (cs : List Char) : List Char :=
  ((cs.dropWhile isWSChar).reverse.dropWhile isWSChar).reverse

/-- JS `s.split(sep)` for a one-character separator: every occurrence splits,
empty fields are kept, the empty string yields `[[]]`. -/
def splitOnChar (sep : Char) : List Char → List (List Char)
  | [] => [[]]
  | c :: rest =>
    if c = sep then [] :: splitOnChar sep rest
    else
      match splitOnChar sep rest with
      | [] => [[c]]
      | h :: t => (c :: h) :: t

/-- First character of the regex class `[a-zA-Z_]`. -/
def isIdentStart (c : Char) : Bool :=
  ('a' ≤ c ∧ c ≤ 'z') ∨ ('A' ≤ c ∧ c ≤ 'Z') ∨ c = '_'

/-- Continuation characters of the regex class `[a-zA-Z0-9_]`. -/
def isIdentChar (c : Char) : Bool := isIdentStart c ∨ ('0' ≤ c ∧ c ≤ '9')

/-- One identifier segment `[a-zA-Z_][a-zA-Z0-9_]*`, whole-list anchored. -/
def isIdent : List Char → Bool
  | [] => false
  | c :: rest => isIdentStart c ∧ rest.all isIdentChar

/-- The anchored regex `^[a-zA-Z_][a-zA-Z0-9_]*(\.[a-zA-Z_][a-zA-Z0-9_]*)*$`
from `analyzeListViewQuery` (pattern 2): identifier segments joined by single
dots. -/
def isSimplePropertyPath (cs : List Char) : Bool :=
  (splitOnChar '.' cs).all isIdent

/-- `ClassificationResult`: the shape returned by `analyzeListViewQuery`.
The JS object carries `pattern` only on valid results and `reason` only on
invalid ones, hence the `Option` fields. -/
structure ClassificationResult where
  isValidListView : Bool
  columns : List String
  columnDetails : List (String × String)
  pattern : Option String
  reason : Option String
deriving DecidableEq, Repr

/-- State of the hand-written key/value scanner inside `analyzeListViewQuery`
(pattern 1).  `quote` is `some c` exactly when the JS code has
`inQuotes = true, quoteChar = c`. -/
structure ScanState where
  currentKey : List Char
  currentValue : List Char
  inKey : Bool
  braceDepth : Int
  bracketDepth : Int
  quote : Option Char
  columns : List (List Char × List Char)
deriving DecidableEq, Repr

/-- The quote-tracking step of the scanner (JS lines 54-62): an unescaped
quote character either opens a quote, closes the matching one, or is kept. -/
def quoteStep (prev c : Char) (q : Option Char) : Option Char :=
  if (c = dquote ∨ c = squote) ∧ prev ≠ backslash then
    match q with
    | none => some c
    | some qc => if c = qc then none else some qc
  else q

/-- The depth-tracking step of the scanner (JS lines 66-69), executed only when
no quote is open after the quote step. -/
def depthStep (c : Char) (q1 : Option Char) (bd kd : Int) : Int × Int :=
  if q1.isNone then
    if c = lbrace then (bd + 1, kd)
    else if c = rbrace then (bd - 1, kd)
    else if c = '[' then (bd, kd + 1)
    else if c = ']' then (bd, kd - 1)
    else (bd, kd)
  else (bd, kd)

/-- Push a completed key/value pair, but only when both trim to something
non-empty (JS lines 79-88 and 101-106). -/
def pushPair (cols : List (List Char × List Char)) (k v : List Char) :
    List (List Char × List Char) :=
  if trimChars k ≠ [] ∧ trimChars v ≠ [] then cols ++ [(trimChars k, trimChars v)]
  else cols

/-- Accumulate a character into the current key or value (JS lines 92-97). -/
def accumChar (s : ScanState) (c : Char) : ScanState :=
  if s.inKey then { s with currentKey := s.currentKey ++ [c] }
  else { s with currentValue := s.currentValue ++ [c] }

/-- The quote- and depth-tracking part of one scanner iteration: the state
with `quote`, `braceDepth` and `bracketDepth` updated for character `c`. -/
def afterDepth (prev c : Char) (s : ScanState) : ScanState :=
  { s with quote := quoteStep prev c s.quote,
           braceDepth := (depthStep c (quoteStep prev c s.quote) s.braceDepth s.bracketDepth).1,
           bracketDepth := (depthStep c (quoteStep prev c s.quote) s.braceDepth s.bracketDepth).2 }

/-- The separator-handling part of one scanner iteration (JS lines 71-97),
applied to the state already updated for quotes and depths: an unquoted
zero-depth colon ends the key, an unquoted zero-depth comma emits the pair,
anything else is accumulated. -/
def scanSep (c : Char) (s1 : ScanState) : ScanState :=
  if s1.quote.isNone then
    if c = ':' ∧ s1.braceDepth = 0 ∧ s1.bracketDepth = 0 ∧ s1.inKey then
      { s1 with inKey := false }
    else if c = ',' ∧ s1.braceDepth = 0 ∧ s1.bracketDepth = 0 then
      { s1 with columns := pushPair s1.columns s1.currentKey s1.currentValue,
                currentKey := [], currentValue := [], inKey := true }
    else accumChar s1 c
  else accumChar s1 c

/-- One iteration of the scanner loop of `analyzeListViewQuery` (JS lines
49-98), for current character `c` whose predecessor in the brace content is
`prev`. -/
def scanStep (prev c : Char) (s : ScanState) : ScanState :=
  scanSep c (afterDepth prev c s)

/-- Run the scanner over a character list; the first argument is the previous
character (the JS code uses the empty string before index 0, whose only use is
the comparison with a backslash, so any non-backslash character is faithful). -/
def scanAux : Char → List Char → ScanState → ScanState
  | _, [], s => s
  | prev, c :: rest, s => scanAux c rest (scanStep prev c s)

/-- The initial scanner state (JS lines 41-47). -/
def initScan : ScanState :=
  { currentKey := [], currentValue := [], inKey := true,
    braceDepth := 0, bracketDepth := 0, quote := none, columns := [] }

/-- Extract the key/value pairs from the brace content of an object
projection: run the scanner, then push the final pair (JS lines 100-106). -/
def extractPairs (content : List Char) : List (List Char × List Char) :=
  let fin := scanAux ' ' content initScan
  pushPair fin.columns fin.currentKey fin.currentValue

/-- Match the body that must follow the opening brace against `([^}]+)\}$`:
a non-empty run of non-`}` characters, a closing brace, end of input — that
is, everything up to the first closing brace is captured, that closing brace
is the last character, and the capture is non-empty. -/
def matchBraceBody (body : List Char) : Option (List Char) :=
  if body.dropWhile (fun c => ¬c = rbrace) = [rbrace] ∧
      ¬(body.takeWhile (fun c => ¬c = rbrace)) = [] then
    some (body.takeWhile (fun c => ¬c = rbrace))
  else none

/-- Expect an opening brace and then `matchBraceBody`. -/
def matchOpenBrace (cs : List Char) : Option (List Char) :=
  match cs with
  | c :: body => if c = lbrace then matchBraceBody body else none
  | [] => none

/-- The outer regex of pattern 1, `^\[\]\.?\{([^}]+)\}$`, returning the
captured brace content.  After `[]` an optional dot must be followed by the
opening brace; since a dot is not an opening brace, consuming the dot when it
is present is equivalent to the regex's backtracking. -/
def matchObjectProjection (cs : List Char) : Option (List Char) :=
  match cs with
  | a :: b :: rest =>
    if a = '[' ∧ b = ']' then
      match rest with
      | c :: rest2 => if c = '.' then matchOpenBrace rest2 else matchOpenBrace rest
      | [] => none
    else none
  | _ => none

/-- The outer regex of pattern 3, `^\[([^\]]+)\]$`, returning the captured
bracket content. -/
def matchPropertyArray (cs : List Char) : Option (List Char) :=
  match cs with
  | a :: body =>
    if a = '[' ∧ body.dropWhile (fun c => ¬c = ']') = [']'] ∧
        ¬(body.takeWhile (fun c => ¬c = ']')) = [] then
      some (body.takeWhile (fun c => ¬c = ']'))
    else none
  | [] => none

/-- The invalid result returned when no pattern matches (JS lines 167-171). -/
def notSuitableResult : ClassificationResult :=
  { isValidListView := false, columns := [], columnDetails := [],
    pattern := none,
    reason := some ("Query pattern not suitable for list view. Use formats like: [].\x7btitle: title, status: status\x7d") }

/-- The successful property-array result for the trimmed entry list `props`
(JS lines 150-157). -/
def propertyArrayResult (props : List (List Char)) : ClassificationResult :=
  { isValidListView := true, columns := props.map String.mk,
    columnDetails := props.map (fun p => (String.mk p, String.mk p)),
    pattern := some "property-array", reason := none }

/-- Patterns 2 and 3 of `analyzeListViewQuery`, reached when pattern 1 did not
produce at least one pair (JS lines 125-171). -/
def laterPatterns (q : List Char) : ClassificationResult :=
  if isSimplePropertyPath q then
    { isValidListView := true, columns := [String.mk q],
      columnDetails := [(String.mk q, String.mk q)],
      pattern := some "simple-property", reason := none }
  else
    match matchPropertyArray q with
    | some content =>
      if ((splitOnChar ',' content).map trimChars).all isSimplePropertyPath ∧
          0 < ((splitOnChar ',' content).map trimChars).length then
        propertyArrayResult ((splitOnChar ',' content).map trimChars)
      else notSuitableResult
    | none => notSuitableResult

/-- The successful object-projection result for the extracted pair list
(JS lines 108-115). -/
def objectProjectionResult (pairs : List (List Char × List Char)) :
    ClassificationResult :=
  { isValidListView := true,
    columns := pairs.map (fun p => String.mk p.1),
    columnDetails := pairs.map (fun p => (String.mk p.1, String.mk p.2)),
    pattern := some "object-projection", reason := none }

/-- `analyzeListViewQuery` on the already-trimmed query characters. -/
def analyzeTrimmed (q : List Char) : ClassificationResult :=
  if q = [] then
    { isValidListView := false, columns := [], columnDetails := [],
      pattern := none, reason := some "Empty query" }
  else
    match matchObjectProjection q with
    | some content =>
      if 0 < (extractPairs content).length then
        objectProjectionResult (extractPairs content)
      else laterPatterns q
    | none => laterPatterns q

/-- `analyzeListViewQuery` from `src/sheets/sheet-operations.mjs` (lines
22-172).  The `try`/`catch` blocks of the source protect pure string
operations that cannot throw, so their catch branches are unreachable and not
modelled. -/
def analyzeListViewQuery (queryText : String) : ClassificationResult :=
  analyzeTrimmed (trimChars queryText.data)

/-- JSON values.  Objects keep their fields in insertion order, which is the
order `Object.keys` reports for the string-keyed ASCII objects this program
handles. -/
inductive Json where
  | jnull
  | jbool (b : Bool)
  | jnum (n : Int)
  | jstr (s : String)
  | jarr (items : List Json)
  | jobj (fields : List (String × Json))

/-- A stored row as returned by the replicated store: an id, a timestamp and
the document. -/
structure Row where
  uuid : String
  time : Int
  json : Json

/-- `Object.keys` on the model: field names of an object, in order; the JS
code only calls it on values already known to be non-array objects. -/
def jsonKeys : Json → List String
  | .jobj fields => fields.map (fun f => f.1)
  | _ => []

/-- Truthy non-array object test used throughout `display.mjs`:
`v && typeof v === 'object' && !Array.isArray(v)`.  `null` is falsy and
arrays are excluded, so exactly the `jobj` constructor qualifies. -/
def isPlainObject : Json → Bool
  | .jobj _ => true
  | _ => false

/-- The "structured row" test of `analyzeQueryResults` (JS lines 223-228):
the row's json is a truthy non-array object with at least one key. -/
def structuredJson (j : Json) : Bool :=
  isPlainObject j ∧ 0 < (jsonKeys j).length

/-- The per-row consistency test of `analyzeQueryResults` (JS lines 253-260):
a non-array object whose key list has the sample's length and contains every
sample column. -/
def consistentWith (columns : List String) (j : Json) : Bool :=
  isPlainObject j ∧
    ((jsonKeys j).length = columns.length ∧
      columns.all (fun col => (jsonKeys j).contains col))

/-- `ConsistencyResult`: the shape returned by `analyzeQueryResults`. -/
structure ConsistencyResult where
  canShowColumns : Bool
  columns : List String
  reason : Option String
deriving DecidableEq, Repr

/-- Number of binary digits, by repeated halving; the first argument is
fuel, which the second argument itself always suffices for. -/
def bitlenAux : Nat → Nat → Nat
  | _, 0 => 0
  | 0, _ + 1 => 0
  | fuel + 1, x + 1 => bitlenAux fuel ((x + 1) / 2) + 1

/-- Number of binary digits of a natural number (`0` for `0`). -/
def bitlen (x : Nat) : Nat := bitlenAux x x

/-- Round the non-negative rational `p / q` (with `q > 0`) to the nearest
integer, ties to even — the rounding of IEEE 754 arithmetic. -/
def roundRatNearestEven (p q : Nat) : Nat :=
  if 2 * (p % q) < q then p / q
  else if q < 2 * (p % q) then p / q + 1
  else if p / q % 2 = 0 then p / q else p / q + 1

/-- Decide `a * 2 ^ e / b < 2 ^ k` for naturals `a`, `b` and a possibly
negative exponent `e`. -/
def ltScaledPow2 (a b : Nat) (e : Int) (k : Nat) : Bool :=
  if 0 ≤ e then a * 2 ^ e.toNat < b * 2 ^ k
  else a < b * 2 ^ (k + (-e).toNat)

/-- The scaling exponent `e` that brings the positive rational `a / b` into
the normalized band `a * 2 ^ e / b ∈ [2 ^ 52, 2 ^ 53)`.  The bit-length
estimate lands within one step of the band, so at most one adjustment is
needed. -/
def binExponent (a b : Nat) : Int :=
  if ltScaledPow2 a b (52 + (bitlen b : Int) - (bitlen a : Int)) 52 then
    52 + (bitlen b : Int) - (bitlen a : Int) + 1
  else if ¬ltScaledPow2 a b (52 + (bitlen b : Int) - (bitlen a : Int)) 53 then
    52 + (bitlen b : Int) - (bitlen a : Int) - 1
  else 52 + (bitlen b : Int) - (bitlen a : Int)

/-- The 53-bit significand of the positive rational `a / b` at scaling
exponent `e`: `a * 2 ^ e / b` rounded to the nearest integer, ties to even. -/
def significandAt (a b : Nat) (e : Int) : Nat :=
  if 0 ≤ e then roundRatNearestEven (a * 2 ^ e.toNat) b
  else roundRatNearestEven a (b * 2 ^ (-e).toNat)

/-- The IEEE 754 binary64 value nearest to the positive rational `a / b`,
represented exactly as a significand-exponent pair `(m, e)` of value
`m / 2 ^ e`: scale into `[2 ^ 52, 2 ^ 53)`, round the 53-bit significand to
nearest, ties to even.  The exponent is unbounded, which agrees with binary64
wherever no overflow or underflow occurs — in particular on every value this
development feeds it: ratios `c / n` of JS array lengths, which are below
`2 ^ 32`, and such ratios times `100`. -/
def nearestDyadic (a b : Nat) : Nat × Int :=
  (significandAt a b (binExponent a b), binExponent a b)

/-- `Math.round` of the non-negative dyadic value `m / 2 ^ e`: the nearest
integer, ties toward positive infinity, that is `floor (m / 2 ^ e + 1 / 2)`
on the exact value. -/
def roundDyadicHalfUp (m : Nat) (e : Int) : Nat :=
  if 0 ≤ e then (2 * m + 2 ^ e.toNat) / 2 ^ (e.toNat + 1)
  else m * 2 ^ (-e).toNat

/-- `Math.round(consistencyRatio * 100)` computed exactly as the program
does: the correctly rounded double division `c / n`, the correctly rounded
double multiplication of that double by `100`, then `Math.round`.  This
reproduces the printed percentage bit-for-bit, including half-percent ratios
such as `23 / 40`, where the double computation lands just below `57.5` and
the program prints `57`. -/
def roundPercent (c n : Nat) : Nat :=
  if c = 0 ∨ n = 0 then 0
  else
    let d1 := nearestDyadic c n
    let a2 := if 0 ≤ d1.2 then 100 * d1.1 else 100 * d1.1 * 2 ^ (-d1.2).toNat
    let b2 := if 0 ≤ d1.2 then 2 ^ d1.2.toNat else 1
    let d2 := nearestDyadic a2 b2
    roundDyadicHalfUp d2.1 d2.2

/-- The sampling-and-threshold tail of `analyzeQueryResults` (JS lines
246-271), for the sample columns already extracted: reject empty column
lists, count the rows consistent with the sample, and apply the fixed `0.8`
threshold — `consistencyRatio < 0.8` is `5 * c < 4 * n` (the double
comparison agrees on every representable array length), and
`Math.round(consistencyRatio * 100)` is `roundPercent`, the exact binary64
model. -/
def scoreRows (rows : List Row) (columns : List String) : ConsistencyResult :=
  if columns.isEmpty then
    { canShowColumns := false, columns := [],
      reason := some "No columns found in structured data" }
  else if 5 * (rows.filter (fun r => consistentWith columns r.json)).length <
      4 * rows.length then
    { canShowColumns := false, columns := [],
      reason := some ("Only " ++ toString (roundPercent
        (rows.filter (fun r => consistentWith columns r.json)).length
        rows.length) ++ "% of rows have consistent structure") }
  else
    { canShowColumns := true, columns := columns, reason := none }

/-- `analyzeQueryResults` from `src/utils/display.mjs` (lines 217-272).  The
`queryText` parameter is kept because the source declares it, although its
body never reads it. -/
def analyzeQueryResults (rows : List Row) (queryText : String) : ConsistencyResult :=
  if rows.isEmpty then
    { canShowColumns := false, columns := [], reason := some "No data to analyze" }
  else if ¬rows.any (fun r => structuredJson r.json) then
    { canShowColumns := false, columns := [],
      reason := some "Query results are not structured objects" }
  else
    match rows.find? (fun r => structuredJson r.json) with
    | none =>
      { canShowColumns := false, columns := [],
        reason := some "No valid structured data found" }
    | some sampleRow => scoreRows rows (jsonKeys sampleRow.json)

/-- One element of the output of `applyListViewQuery`. -/
structure TransformedRow where
  uuid : String
  time : Int
  listViewData : Option Json
  originalJson : Json

/-- The body of the per-row loop of `applyListViewQuery` (JS lines 142-169).
`search` is the external `jmespath.search` collaborator; an exception from it
is an `Except.error`.  A thrown evaluation or a non-object result both fall
back to a `null` `listViewData` with the original document retained. -/
def transformRow (search : Json → String → Except String Json)
    (queryText : String) (row : Row) : TransformedRow :=
  match search row.json queryText with
  | .ok result =>
    if isPlainObject result then
      { uuid := row.uuid, time := row.time, listViewData := some result,
        originalJson := row.json }
    else
      { uuid := row.uuid, time := row.time, listViewData := none,
        originalJson := row.json }
  | .error _ =>
    { uuid := row.uuid, time := row.time, listViewData := none,
      originalJson := row.json }

/-- `applyListViewQuery` from `src/utils/display.mjs` (lines 136-183), with
the expression engine passed explicitly.  The outer `catch` of the source only
guards the dynamic import of the engine module and is not part of the per-row
semantics. -/
def applyListViewQuery (search : Json → String → Except String Json)
    (rows : List Row) (queryText : String) : List TransformedRow :=
  rows.map (transformRow search queryText)

/-- A stored query definition (`QueryDefinition` of the spec). -/
structure QueryDefinition where
  queryId : String
  name : String
  JMESPathQuery : String
  listView : Bool
deriving DecidableEq, Repr

/-- `checkExistingListView` from `src/sheets/sheet-operations.mjs` (lines
589-597).  `listed` is the response of `sheet.listQueries(schema.schemaId)`;
a rejection is caught, a warning is emitted, and `null` is returned.  The
second component collects the `console.warn` output. -/
def checkExistingListView (listed : Except String (List QueryDefinition)) :
    Option QueryDefinition × List String :=
  match listed with
  | .error e => (none, ["Failed to check existing list view queries: " ++ e])
  | .ok qs => (qs.find? (fun q => q.listView), [])

/-- The conflict warning emitted by `getListViewQuery`. -/
def multipleListViewWarn (schemaName keptName : String) : String :=
  "Schema \"" ++ schemaName ++ "\" has multiple list view queries, using the first one: \"" ++
    keptName ++ "\""

/-- The body of `getListViewQuery` once the listing has succeeded (JS lines
604-611): filter for `listView === true`, warn when more than one remains
(`length > 1` is "the rest is non-empty"), return the first or `null`. -/
def getListViewQueryOk (schemaName : String) (qs : List QueryDefinition) :
    Option QueryDefinition × List String :=
  match qs.filter (fun q => q.listView) with
  | [] => (none, [])
  | first :: rest =>
    if 0 < rest.length then
      (some first, [multipleListViewWarn schemaName first.name])
    else (some first, [])

/-- `getListViewQuery` from `src/sheets/sheet-operations.mjs` (lines 602-616).
Filters the stored queries for `listView === true`, warns when more than one
is flagged, returns the first flagged one or `null`; a listing rejection is
caught, warned about and turned into `null`. -/
def getListViewQuery (schemaName : String)
    (listed : Except String (List QueryDefinition)) :
    Option QueryDefinition × List String :=
  match listed with
  | .error e => (none, ["Failed to get list view query: " ++ e])
  | .ok qs => getListViewQueryOk schemaName qs

/-- Observable events of one run of `showSetListView`, in order: the
classification of the candidate, the operator confirmations, the registry
lookup, and each `sheet.updateQuery(queryId, _, _, listView)` write. -/
inductive SLVEvent where
  | classified (valid : Bool)
  | invalidConfirm (proceed : Bool)
  | lookedUpExisting
  | replaceConfirm (answer : Bool)
  | write (queryId : String) (listView : Bool)
deriving DecidableEq, Repr

/-- The replace branch of the protocol (JS lines 1090-1102), entered when a
different definition already holds the flag and the operator confirmed: the
clearing write is attempted, and only when it succeeds is the setting write
issued (a rejection escapes to the surrounding `catch`). -/
def replaceWrites (q : QueryDefinition) (replaceAnswer : Bool)
    (clearOutcome : Except String Unit) (ex : QueryDefinition)
    (pre : List SLVEvent) : List SLVEvent :=
  match clearOutcome with
  | .error _ =>
    pre ++ [SLVEvent.lookedUpExisting, SLVEvent.replaceConfirm replaceAnswer,
      SLVEvent.write ex.queryId false]
  | .ok _ =>
    pre ++ [SLVEvent.lookedUpExisting, SLVEvent.replaceConfirm replaceAnswer,
      SLVEvent.write ex.queryId false, SLVEvent.write q.queryId true]

/-- The protocol tail when the lookup found a flag holder (JS lines
1088-1104): same holder — set directly; different holder — ask, then either
abort or clear-then-set. -/
def setWritesWithExisting (q : QueryDefinition) (replaceAnswer : Bool)
    (clearOutcome : Except String Unit) (ex : QueryDefinition)
    (pre : List SLVEvent) : List SLVEvent :=
  if ¬ex.queryId = q.queryId then
    if replaceAnswer then replaceWrites q replaceAnswer clearOutcome ex pre
    else pre ++ [SLVEvent.lookedUpExisting, SLVEvent.replaceConfirm replaceAnswer]
  else pre ++ [SLVEvent.lookedUpExisting, SLVEvent.write q.queryId true]

/-- The part of `showSetListView` after the classification gate (JS lines
1084-1115): look up the current flag holder, then proceed as
`setWritesWithExisting` when one exists — a failed or empty lookup leads
directly to the setting write.  The outcome of the setting write only affects
logging, not the event order, so it is not a parameter. -/
def setListViewWrites (q : QueryDefinition) (replaceAnswer : Bool)
    (listed : Except String (List QueryDefinition))
    (clearOutcome : Except String Unit) (pre : List SLVEvent) : List SLVEvent :=
  match (checkExistingListView listed).1 with
  | some existing => setWritesWithExisting q replaceAnswer clearOutcome existing pre
  | none => pre ++ [SLVEvent.lookedUpExisting, SLVEvent.write q.queryId true]

/-- `showSetListView` from `src/menus/row-menu.mjs` (lines 1061-1115) as the
sequence of observable events of one run.  `proceedAnyway` is the operator's
answer to "Set as list view anyway?" (consulted only when classification
fails); `replaceAnswer` answers "Replace the existing list view query?"
(consulted only when a different definition holds the flag). -/
def showSetListView (q : QueryDefinition) (proceedAnyway replaceAnswer : Bool)
    (listed : Except String (List QueryDefinition))
    (clearOutcome : Except String Unit) : List SLVEvent :=
  if (analyzeListViewQuery q.JMESPathQuery).isValidListView then
    setListViewWrites q replaceAnswer listed clearOutcome
      [SLVEvent.classified (analyzeListViewQuery q.JMESPathQuery).isValidListView]
  else if proceedAnyway then
    setListViewWrites q replaceAnswer listed clearOutcome
      [SLVEvent.classified (analyzeListViewQuery q.JMESPathQuery).isValidListView,
       SLVEvent.invalidConfirm proceedAnyway]
  else
    [SLVEvent.classified (analyzeListViewQuery q.JMESPathQuery).isValidListView,
     SLVEvent.invalidConfirm proceedAnyway]

/-- The writes contained in an event trace, in order. -/
def traceWrites (tr : List SLVEvent) : List (String × Bool) :=
  tr.filterMap (fun e =>
    match e with
    | .write id flag => some (id, flag)
    | _ => none)

/-- Checks that no clearing write (`listView := false`) occurs after a
setting write (`listView := true`) in a write sequence: once a setting write
has happened, every later write must also be a setting write. -/
def clearsBeforeSets : List (String × Bool) → Bool
  | [] => true
  | (_, false) :: rest => clearsBeforeSets rest
  | (_, true) :: rest => rest.all (fun w => w.2)

/-- Characters that may appear in a rendered pair key without ever being a
separator, a nesting character or a quote for the scanner. -/
def safeKeyChar (c : Char) : Bool :=
  ¬(c = ':' ∨ c = ',' ∨ c = lbrace ∨ c = rbrace ∨ c = '[' ∨ c = ']' ∨
    c = dquote ∨ c = squote ∨ c = backslash)

/-- A usable pair key: made of safe characters and non-blank after trimming. -/
def safeKey (k : List Char) : Bool :=
  k.all safeKeyChar && ¬(trimChars k = [])

/-- Run the scanner's quote/depth automaton over an expression standing in
value position (its predecessor character is the colon that ended the key) and
require that no unquoted zero-depth comma occurs and that the automaton ends
with no open quote and both depths back at zero — the condition under which
the scanner treats the whole run as one expression. -/
def balancedExprAux : Char → Option Char → Int → Int → List Char → Bool
  | _, q, bd, kd, [] => q.isNone && bd == 0 && kd == 0
  | prev, q, bd, kd, c :: rest =>
    if (quoteStep prev c q).isNone ∧ c = ',' ∧
        (depthStep c (quoteStep prev c q) bd kd).1 = 0 ∧
        (depthStep c (quoteStep prev c q) bd kd).2 = 0 then false
    else
      balancedExprAux c (quoteStep prev c q)
        (depthStep c (quoteStep prev c q) bd kd).1
        (depthStep c (quoteStep prev c q) bd kd).2 rest

/-- An expression is balanced when the automaton run from the neutral state,
with the key-ending colon as previous character, accepts it. -/
def balancedExpr (e : List Char) : Bool := balancedExprAux ':' none 0 0 e

/-- Render one `key : expression` pair the way the object-projection grammar
writes it (keys and expressions carry their own optional whitespace). -/
def pairChars (pr : List Char × List Char) : List Char := pr.1 ++ ':' :: pr.2

/-- Render a non-empty pair list as the brace content of an object
projection: pairs joined by top-level commas. -/
def contentOf : List (List Char × List Char) → List Char
  | [] => []
  | [pr] => pairChars pr
  | pr :: ps => pairChars pr ++ ',' :: contentOf ps

/-- Render a whole object-projection input, `[].\x7b...\x7d` when `dot` and
`[]\x7b...\x7d` otherwise. -/
def objProjInput (dot : Bool) (ps : List (List Char × List Char)) : List Char :=
  '[' :: ']' :: (if dot then ['.'] else []) ++ lbrace :: (contentOf ps ++ [rbrace])

/-- Modelled from the spec: the claim's notion of a well-formed
object-projection pair list — at least one pair; every key free of separator,
nesting and quote characters and non-blank; every expression non-blank and
balanced for the claimed brace-, bracket- and quote-tracking scan, so that
commas and colons inside nesting (nested braces explicitly included) or
inside quotes are not separators. -/
def specWellFormedPairs (ps : List (List Char × List Char)) : Bool :=
  ¬ps.isEmpty &&
    ps.all (fun pr => safeKey pr.1 && balancedExpr pr.2 && ¬(trimChars pr.2 = []))

/-- The pair lists of the code's actual object-projection language: well
formed as above and with no closing brace anywhere in an expression, because
the outer regex `[^}]+` refuses any closing brace inside the braces. -/
def braceFreePairs (ps : List (List Char × List Char)) : Bool :=
  specWellFormedPairs ps &&
    ps.all (fun pr => pr.2.all (fun c => ¬c = rbrace))

/-- Does `needle` start `hay`? -/
def startsWithChars : List Char → List Char → Bool
  | [], _ => true
  | _ :: _, [] => false
  | a :: as, b :: bs => a = b && startsWithChars as bs

/-- Does `needle` occur contiguously inside `hay`? -/
def containsSub (needle : List Char) : List Char → Bool
  | [] => needle.isEmpty
  | c :: rest => startsWithChars needle (c :: rest) || containsSub needle rest

/-- The pairs of the nested-brace input `[].\x7ba: \x7bx: y\x7d, b: c\x7d`:
two pairs, the first expression containing a balanced nested brace pair. -/
def nestedBracePairs : List (List Char × List Char) :=
  [("a".data, (" " ++ String.mk [lbrace] ++ "x: y" ++ String.mk [rbrace]).data),
   (" b".data, " c".data)]

/-- Set equality of two key lists: each contains every member of the other. -/
def sameKeySet (a b : List String) : Bool :=
  a.all (fun x => b.contains x) && b.all (fun x => a.contains x)

/-- The rows the claim about the consistency threshold counts: rows whose
stored value is a non-array object with exactly the sample's key set. -/
def claimConsistentCount (rows : List Row) (sample : List String) : Nat :=
  (rows.filter (fun r =>
    isPlainObject r.json && sameKeySet (jsonKeys r.json) sample)).length

/-- An object row value with key set `a`, `b`. -/
def objAB : Json := Json.jobj [("a", Json.jnum 1), ("b", Json.jnum 2)]

/-- Ten rows of which the first eight share the key set of the sample and two
are malformed (plain strings). -/
def rowsEightOfTen : List Row :=
  [⟨"u1", 1, objAB⟩, ⟨"u2", 2, objAB⟩, ⟨"u3", 3, objAB⟩, ⟨"u4", 4, objAB⟩,
   ⟨"u5", 5, objAB⟩, ⟨"u6", 6, objAB⟩, ⟨"u7", 7, objAB⟩, ⟨"u8", 8, objAB⟩,
   ⟨"u9", 9, Json.jstr "x"⟩, ⟨"u10", 10, Json.jstr "y"⟩]

/-- Ten rows of which only the first seven share the sample's key set. -/
def rowsSevenOfTen : List Row :=
  [⟨"u1", 1, objAB⟩, ⟨"u2", 2, objAB⟩, ⟨"u3", 3, objAB⟩, ⟨"u4", 4, objAB⟩,
   ⟨"u5", 5, objAB⟩, ⟨"u6", 6, objAB⟩, ⟨"u7", 7, objAB⟩,
   ⟨"u8", 8, Json.jstr "w"⟩, ⟨"u9", 9, Json.jstr "x"⟩,
   ⟨"u10", 10, Json.jstr "y"⟩]

/-- Five rows whose first structured row has key `a` while the four later
rows share the different key set `b`, `c`: the consistency check fails. -/
def rowsMixedKeys : List Row :=
  [⟨"u1", 1, Json.jobj [("a", Json.jnum 1)]⟩,
   ⟨"u2", 2, Json.jobj [("b", Json.jnum 1), ("c", Json.jnum 2)]⟩,
   ⟨"u3", 3, Json.jobj [("b", Json.jnum 2), ("c", Json.jnum 3)]⟩,
   ⟨"u4", 4, Json.jobj [("b", Json.jnum 3), ("c", Json.jnum 4)]⟩,
   ⟨"u5", 5, Json.jobj [("b", Json.jnum 4), ("c", Json.jnum 5)]⟩]

/-- Two rows neither of which is a structured object. -/
def rowsUnstructured : List Row :=
  [⟨"u1", 1, Json.jstr "x"⟩, ⟨"u2", 2, Json.jarr [Json.jnum 1]⟩]

/-- An expression engine that rejects every document. -/
def alwaysFailingSearch : Json → String → Except String Json :=
  fun _ _ => Except.error "bad expression"

/-- An expression engine that returns object documents unchanged and rejects
everything else. -/
def objectOnlySearch : Json → String → Except String Json :=
  fun j _ =>
    match j with
    | Json.jobj fields => Except.ok (Json.jobj fields)
    | _ => Except.error "not an object"

/-- An expression engine whose evaluation succeeds but yields an array. -/
def arrayReturningSearch : Json → String → Except String Json :=
  fun _ _ => Except.ok (Json.jarr [])

/-- Two rows used to exercise the batch projection. -/
def projectionRows : List Row :=
  [⟨"r1", 11, objAB⟩, ⟨"r2", 12, Json.jstr "plain"⟩]

/-- A stored query definition flagged as list view, named `Q1`. -/
def queryQ1 : QueryDefinition := ⟨"id1", "Q1", "status", true⟩

/-- A second flagged definition, named `Zed`, that a conflict discards. -/
def queryZed : QueryDefinition := ⟨"id2", "Zed", "title", true⟩

/-- An unflagged stored definition. -/
def queryPlain : QueryDefinition := ⟨"id3", "Plain", "priority", false⟩

/-- The candidate of the set-as-list-view runs in the witnesses: a valid
simple-property expression. -/
def candidateQuery : QueryDefinition := ⟨"idc", "Candidate", "status", false⟩

/-- A candidate whose expression fails classification. -/
def invalidCandidateQuery : QueryDefinition := ⟨"idq", "Bad", "[1abc]", false⟩

/-! ## General lemmas about the string helpers -/

theorem splitOnChar_ne_nil (sep : Char) (cs : List Char) : splitOnChar sep cs ≠ [] := by
  match cs with
  | [] => simp [splitOnChar]
  | c :: rest =>
    by_cases h : c = sep
    · simp [splitOnChar, h]
    · have := splitOnChar_ne_nil sep rest
      simp only [splitOnChar, if_neg h]
      match hs : splitOnChar sep rest with
      | [] => exact absurd hs this
      | x :: xs => simp

theorem splitOnChar_cons_ne (sep c : Char) (rest : List Char) (h : ¬c = sep) :
    ∃ tail more, splitOnChar sep (c :: rest) = (c :: tail) :: more := by
  simp only [splitOnChar, if_neg h]
  match hs : splitOnChar sep rest with
  | [] => exact absurd hs (splitOnChar_ne_nil sep rest)
  | x :: xs => exact ⟨x, xs, rfl⟩

theorem trimChars_keep (a b : Char) (xs : List Char)
    (ha : isWSChar a = false) (hb : isWSChar b = false) :
    trimChars (a :: (xs ++ [b])) = a :: (xs ++ [b]) := by
  simp [trimChars, List.dropWhile_cons, ha, hb, List.reverse_append]

theorem takeWhile_append_last (p : Char → Bool) (C : List Char) (x : Char)
    (hC : C.all p = true) (hx : p x = false) :
    (C ++ [x]).takeWhile p = C ∧ (C ++ [x]).dropWhile p = [x] := by
  induction C with
  | nil => simp [List.takeWhile, List.dropWhile, hx]
  | cons c rest ih =>
    simp only [List.all_cons, Bool.and_eq_true] at hC
    have := ih hC.2
    simp [List.takeWhile_cons, List.dropWhile_cons, hC.1, this.1, this.2]

/-! ## Lemmas about the object-projection scanner -/

theorem scanAux_append (xs ys : List Char) (p : Char) (s : ScanState) :
    scanAux p (xs ++ ys) s = scanAux (xs.getLastD p) ys (scanAux p xs s) := by
  induction xs generalizing p s with
  | nil => simp [scanAux, List.getLastD]
  | cons c rest ih =>
    simp only [List.cons_append, scanAux, List.getLastD_cons]
    exact ih c (scanStep p c s)

theorem scanKey (k : List Char) (p : Char) (s : ScanState)
    (hk : k.all safeKeyChar = true) (h1 : s.inKey = true) (h2 : s.quote = none)
    (h3 : s.braceDepth = 0) (h4 : s.bracketDepth = 0) :
    scanAux p k s = { s with currentKey := s.currentKey ++ k } := by
  induction k generalizing p s with
  | nil => simp [scanAux]
  | cons c rest ih =>
    simp only [List.all_cons, Bool.and_eq_true] at hk
    have hc : ¬(c = ':' ∨ c = ',' ∨ c = lbrace ∨ c = rbrace ∨ c = '[' ∨ c = ']' ∨
        c = dquote ∨ c = squote ∨ c = backslash) := by
      simpa [safeKeyChar] using hk.1
    push_neg at hc
    obtain ⟨hcol, hcom, hlb, hrb, hob, hcb, hdq, hsq, hbs⟩ := hc
    obtain ⟨ck, cv, ik, bd, kd, qt, cols⟩ := s
    simp only at h1 h2 h3 h4
    subst h1 h2 h3 h4
    have hq : quoteStep p c none = none := by
      unfold quoteStep
      exact if_neg (fun h => h.1.elim hdq hsq)
    have hstep : scanStep p c ⟨ck, cv, true, 0, 0, none, cols⟩ =
        ⟨ck ++ [c], cv, true, 0, 0, none, cols⟩ := by
      unfold scanStep afterDepth scanSep
      simp only [hq]
      simp [depthStep, hlb, hrb, hob, hcb, hcol, hcom, accumChar]
    rw [scanAux, hstep, ih c _ hk.2 rfl rfl rfl rfl]
    simp

theorem scanColon (p : Char) (s : ScanState) (h1 : s.inKey = true)
    (h2 : s.quote = none) (h3 : s.braceDepth = 0) (h4 : s.bracketDepth = 0) :
    scanStep p ':' s = { s with inKey := false } := by
  obtain ⟨ck, cv, ik, bd, kd, qt, cols⟩ := s
  simp only at h1 h2 h3 h4
  subst h1 h2 h3 h4
  have hq : quoteStep p ':' none = none := by
    unfold quoteStep
    exact if_neg (fun h => absurd h.1 (by decide))
  have hl : ¬(':' = lbrace) := by decide
  have hr : ¬(':' = rbrace) := by decide
  unfold scanStep afterDepth scanSep
  simp only [hq]
  simp [depthStep, hl, hr]

theorem scanComma (p : Char) (s : ScanState)
    (h2 : s.quote = none) (h3 : s.braceDepth = 0) (h4 : s.bracketDepth = 0) :
    scanStep p ',' s =
      { s with columns := pushPair s.columns s.currentKey s.currentValue,
               currentKey := [], currentValue := [], inKey := true } := by
  obtain ⟨ck, cv, ik, bd, kd, qt, cols⟩ := s
  simp only at h2 h3 h4
  subst h2 h3 h4
  have hq : quoteStep p ',' none = none := by
    unfold quoteStep
    exact if_neg (fun h => absurd h.1 (by decide))
  have hl : ¬(',' = lbrace) := by decide
  have hr : ¬(',' = rbrace) := by decide
  unfold scanStep afterDepth scanSep
  simp only [hq]
  simp [depthStep, hl, hr]

theorem scanValue (e : List Char) (p : Char) (s : ScanState)
    (hb : balancedExprAux p s.quote s.braceDepth s.bracketDepth e = true)
    (h1 : s.inKey = false) :
    scanAux p e s = { s with currentValue := s.currentValue ++ e,
                             quote := none, braceDepth := 0, bracketDepth := 0 } := by
  induction e generalizing p s with
  | nil =>
    simp only [balancedExprAux, Bool.and_eq_true, beq_iff_eq,
      Option.isNone_iff_eq_none] at hb
    obtain ⟨⟨hq, hbd⟩, hkd⟩ := hb
    obtain ⟨ck, cv, ik, bd, kd, qt, cols⟩ := s
    simp only at hq hbd hkd
    subst hq hbd hkd
    simp [scanAux]
  | cons c rest ih =>
    rw [balancedExprAux] at hb
    by_cases hsep : (quoteStep p c s.quote).isNone = true ∧ c = ',' ∧
        (depthStep c (quoteStep p c s.quote) s.braceDepth s.bracketDepth).1 = 0 ∧
        (depthStep c (quoteStep p c s.quote) s.braceDepth s.bracketDepth).2 = 0
    · rw [if_pos hsep] at hb
      exact absurd hb (by simp)
    · rw [if_neg hsep] at hb
      have hstep : scanStep p c s =
          { s with currentValue := s.currentValue ++ [c],
                   quote := quoteStep p c s.quote,
                   braceDepth := (depthStep c (quoteStep p c s.quote) s.braceDepth s.bracketDepth).1,
                   bracketDepth := (depthStep c (quoteStep p c s.quote) s.braceDepth s.bracketDepth).2 } := by
        unfold scanStep afterDepth scanSep
        by_cases hqn : (quoteStep p c s.quote).isNone = true
        · rw [if_pos hqn]
          rw [if_neg (fun h => by
            obtain ⟨hc, hbd2, hkd2, hik⟩ := h
            rw [h1] at hik
            exact Bool.false_ne_true hik)]
          rw [if_neg (fun h => hsep ⟨hqn, h⟩)]
          simp [accumChar, h1]
        · rw [if_neg hqn]
          simp [accumChar, h1]
      rw [scanAux, hstep,
        ih c _ (by simpa using hb) (by simp [h1])]
      simp

theorem safeKey_parts (k : List Char) (h : safeKey k = true) :
    k.all safeKeyChar = true ∧ ¬(trimChars k = []) := by
  simpa [safeKey] using h

theorem safeKeyChar_not_rbrace (c : Char) (h : safeKeyChar c = true) : ¬c = rbrace := by
  have hc : ¬(c = ':' ∨ c = ',' ∨ c = lbrace ∨ c = rbrace ∨ c = '[' ∨ c = ']' ∨
      c = dquote ∨ c = squote ∨ c = backslash) := by simpa [safeKeyChar] using h
  push_neg at hc
  exact hc.2.2.2.1

theorem scanPair_chars (k e : List Char) (p0 : Char)
    (cols : List (List Char × List Char))
    (hk : k.all safeKeyChar = true) (hbal : balancedExpr e = true) :
    scanAux p0 (pairChars (k, e)) ⟨[], [], true, 0, 0, none, cols⟩ =
      ⟨k, e, false, 0, 0, none, cols⟩ := by
  unfold balancedExpr at hbal
  have hsplit : pairChars (k, e) = k ++ ([':'] ++ e) := by simp [pairChars]
  rw [hsplit, scanAux_append, scanKey k p0 _ hk rfl rfl rfl rfl]
  simp only [List.nil_append]
  rw [List.singleton_append, scanAux,
    scanColon (k.getLastD p0) ⟨k, [], true, 0, 0, none, cols⟩ rfl rfl rfl rfl]
  rw [scanValue e ':' ⟨k, [], false, 0, 0, none, cols⟩ hbal rfl]
  simp

theorem scanPairs (ps : List (List Char × List Char)) :
    ∀ (p0 : Char) (cols : List (List Char × List Char)),
    (∀ pr ∈ ps, safeKey pr.1 = true ∧ balancedExpr pr.2 = true ∧
      ¬(trimChars pr.2 = [])) →
    ps ≠ [] →
    pushPair (scanAux p0 (contentOf ps) ⟨[], [], true, 0, 0, none, cols⟩).columns
        (scanAux p0 (contentOf ps) ⟨[], [], true, 0, 0, none, cols⟩).currentKey
        (scanAux p0 (contentOf ps) ⟨[], [], true, 0, 0, none, cols⟩).currentValue =
      cols ++ ps.map (fun pr => (trimChars pr.1, trimChars pr.2)) := by
  induction ps with
  | nil => intro p0 cols hs hne; exact absurd rfl hne
  | cons pr ps' ih =>
    intro p0 cols hs hne
    obtain ⟨k, e⟩ := pr
    obtain ⟨hk, hbal, hve⟩ := hs (k, e) (List.mem_cons_self _ _)
    obtain ⟨hkall, hknb⟩ := safeKey_parts k hk
    cases ps' with
    | nil =>
      have hcontent : contentOf [(k, e)] = pairChars (k, e) := rfl
      rw [hcontent, scanPair_chars k e p0 cols hkall hbal]
      simp [pushPair, hknb, hve]
    | cons q rest =>
      have hcontent : contentOf ((k, e) :: q :: rest) =
          pairChars (k, e) ++ (',' :: contentOf (q :: rest)) := rfl
      rw [hcontent, scanAux_append, scanPair_chars k e p0 cols hkall hbal,
        scanAux, scanComma _ ⟨k, e, false, 0, 0, none, cols⟩ rfl rfl rfl]
      have hpush : pushPair cols k e = cols ++ [(trimChars k, trimChars e)] := by
        simp [pushPair, hknb, hve]
      rw [hpush]
      rw [ih ',' (cols ++ [(trimChars k, trimChars e)])
        (fun x hx => hs x (List.mem_cons_of_mem _ hx)) (by simp)]
      simp

theorem extractPairs_contentOf (ps : List (List Char × List Char))
    (hs : ∀ pr ∈ ps, safeKey pr.1 = true ∧ balancedExpr pr.2 = true ∧
      ¬(trimChars pr.2 = []))
    (hne : ps ≠ []) :
    extractPairs (contentOf ps) =
      ps.map (fun pr => (trimChars pr.1, trimChars pr.2)) := by
  unfold extractPairs initScan
  have := scanPairs ps ' ' [] hs hne
  simpa using this

theorem contentOf_no_rbrace (ps : List (List Char × List Char))
    (hs : ∀ pr ∈ ps, pr.1.all safeKeyChar = true ∧
      pr.2.all (fun c => ¬c = rbrace) = true) :
    (contentOf ps).all (fun c => ¬c = rbrace) = true := by
  induction ps with
  | nil => simp [contentOf]
  | cons pr ps' ih =>
    obtain ⟨k, e⟩ := pr
    obtain ⟨hk, he⟩ := hs (k, e) (List.mem_cons_self _ _)
    have hkr : k.all (fun c => ¬c = rbrace) = true := by
      rw [List.all_eq_true] at hk ⊢
      exact fun c hc => by simpa using safeKeyChar_not_rbrace c (by simpa using hk c hc)
    have hpc : (pairChars (k, e)).all (fun c => ¬c = rbrace) = true := by
      simp only [pairChars, List.all_append, List.all_cons, Bool.and_eq_true]
      refine ⟨hkr, ?_, he⟩
      simp
      decide
    cases ps' with
    | nil => exact hpc
    | cons q rest =>
      have : contentOf ((k, e) :: q :: rest) =
          pairChars (k, e) ++ (',' :: contentOf (q :: rest)) := rfl
      rw [this]
      simp only [List.all_append, List.all_cons, Bool.and_eq_true]
      refine ⟨hpc, ?_, ih (fun x hx => hs x (List.mem_cons_of_mem _ hx))⟩
      decide

theorem contentOf_ne_nil (pr : List Char × List Char)
    (ps : List (List Char × List Char)) : contentOf (pr :: ps) ≠ [] := by
  cases ps with
  | nil => simp [contentOf, pairChars]
  | cons q rest => simp [contentOf, pairChars]

theorem braceFreePairs_parts (ps : List (List Char × List Char))
    (h : braceFreePairs ps = true) :
    ps ≠ [] ∧
      (∀ pr ∈ ps, safeKey pr.1 = true ∧ balancedExpr pr.2 = true ∧
        ¬(trimChars pr.2 = [])) ∧
      (∀ pr ∈ ps, pr.2.all (fun c => ¬c = rbrace) = true) := by
  unfold braceFreePairs specWellFormedPairs at h
  rw [Bool.and_eq_true, Bool.and_eq_true] at h
  obtain ⟨⟨hne, hall⟩, hbr⟩ := h
  refine ⟨?_, ?_, ?_⟩
  · intro hnil
    subst hnil
    exact of_decide_eq_true hne rfl
  · intro pr hpr
    have hthis := List.all_eq_true.mp hall pr hpr
    rw [Bool.and_eq_true, Bool.and_eq_true] at hthis
    exact ⟨hthis.1.1, hthis.1.2, of_decide_eq_true hthis.2⟩
  · intro pr hpr
    exact List.all_eq_true.mp hbr pr hpr

theorem objProjInput_shape (dot : Bool) (ps : List (List Char × List Char)) :
    objProjInput dot ps =
      '[' :: ((']' :: ((if dot then ['.'] else []) ++ lbrace :: contentOf ps)) ++
        [rbrace]) := by
  simp [objProjInput]

theorem matchObjectProjection_objProjInput (dot : Bool)
    (ps : List (List Char × List Char)) :
    matchObjectProjection (objProjInput dot ps) =
      matchBraceBody (contentOf ps ++ [rbrace]) := by
  cases dot <;> rfl

theorem matchBraceBody_closed (content : List Char)
    (hC : content.all (fun c => ¬c = rbrace) = true) (hne : content ≠ []) :
    matchBraceBody (content ++ [rbrace]) = some content := by
  have hx : (fun c : Char => decide (¬c = rbrace)) rbrace = false := by simp
  obtain ⟨htake, hdrop⟩ :=
    takeWhile_append_last (fun c : Char => decide (¬c = rbrace)) content rbrace hC hx
  unfold matchBraceBody
  rw [htake, hdrop, if_pos ⟨rfl, hne⟩]

/-- Claim C1 (amended): for every well-formed object-projection input whose
brace content is free of closing braces — keys made of
non-separator/non-nesting/non-quote characters and non-blank, expressions
non-blank, balanced for the bracket/quote scan (commas inside brackets or
quotes are not separators) and containing no `\x7d` — `analyzeListViewQuery`
returns a valid result with pattern `object-projection` and one column per
pair, the trimmed pair keys in source order. -/
theorem claim1_object_projection_columns (dot : Bool)
    (ps : List (List Char × List Char)) (h : braceFreePairs ps = true) :
    analyzeListViewQuery (String.mk (objProjInput dot ps)) =
      { isValidListView := true,
        columns := ps.map (fun pr => String.mk (trimChars pr.1)),
        columnDetails := ps.map (fun pr =>
          (String.mk (trimChars pr.1), String.mk (trimChars pr.2))),
        pattern := some "object-projection",
        reason := none } := by
  obtain ⟨hne, hs, hbr⟩ := braceFreePairs_parts ps h
  cases ps with
  | nil => exact absurd rfl hne
  | cons pr0 ps' =>
    have htrim : trimChars (objProjInput dot (pr0 :: ps')) =
        objProjInput dot (pr0 :: ps') := by
      rw [objProjInput_shape]
      exact trimChars_keep '[' rbrace _ (by decide) (by decide)
    have hobj : matchObjectProjection (objProjInput dot (pr0 :: ps')) =
        some (contentOf (pr0 :: ps')) := by
      rw [matchObjectProjection_objProjInput]
      exact matchBraceBody_closed _
        (contentOf_no_rbrace _ (fun pr hpr =>
          ⟨(safeKey_parts pr.1 (hs pr hpr).1).1, hbr pr hpr⟩))
        (contentOf_ne_nil pr0 ps')
    have hpairs : extractPairs (contentOf (pr0 :: ps')) =
        (pr0 :: ps').map (fun pr => (trimChars pr.1, trimChars pr.2)) :=
      extractPairs_contentOf _ hs hne
    have hdata : (String.mk (objProjInput dot (pr0 :: ps'))).data =
        objProjInput dot (pr0 :: ps') := rfl
    unfold analyzeListViewQuery
    rw [hdata, htrim]
    unfold analyzeTrimmed
    rw [if_neg (by rw [objProjInput_shape]; simp), hobj]
    simp only [hpairs]
    rw [if_pos (by simp)]
    unfold objectProjectionResult
    simp

/-- Claim C1 counterexample: the input `[].\x7ba: \x7bx: y\x7d, b: c\x7d` is a
well-formed object projection in the claim's sense (two `key : expression`
pairs, the comma and inner colon protected by brace nesting), yet
`analyzeListViewQuery` rejects it, because the outer regex `[^\x7d]+` refuses
any closing brace inside the braces.  This refutes the claim's universal
statement. -/
theorem claim1_counterexample :
    specWellFormedPairs nestedBracePairs = true ∧
    String.mk (objProjInput true nestedBracePairs) =
      "[].\x7ba: \x7bx: y\x7d, b: c\x7d" ∧
    (analyzeListViewQuery "[].\x7ba: \x7bx: y\x7d, b: c\x7d").isValidListView
      = false := by
  refine ⟨by decide, by decide, by decide⟩

/-- Claim C1 witness: the amended theorem applied to the two-pair input of the
claim's own example, `[].\x7btitle: title, status: status\x7d`, yields a valid
object-projection classification with columns `title`, `status`. -/
theorem claim1_witness :
    braceFreePairs [("title".data, " title".data), (" status".data, " status".data)]
      = true ∧
    analyzeListViewQuery "[].\x7btitle: title, status: status\x7d" =
      { isValidListView := true,
        columns := ["title", "status"],
        columnDetails := [("title", "title"), ("status", "status")],
        pattern := some "object-projection",
        reason := none } := by
  constructor
  · decide
  · have h := claim1_object_projection_columns true
      [("title".data, " title".data), (" status".data, " status".data)] (by decide)
    have hinput : String.mk (objProjInput true
        [("title".data, " title".data), (" status".data, " status".data)]) =
        "[].\x7btitle: title, status: status\x7d" := by decide
    rw [hinput] at h
    rw [h]
    decide

/-! ## Claim C6: the property-array pattern -/

theorem matchObjectProjection_bracketed (c0 : Char) (rest : List Char)
    (hc0 : ¬c0 = ']') :
    matchObjectProjection ('[' :: c0 :: rest) = none := by
  simp [matchObjectProjection, hc0]

theorem isSimplePropertyPath_bracket (rest : List Char) :
    isSimplePropertyPath ('[' :: rest) = false := by
  obtain ⟨tail, more, hsplit⟩ := splitOnChar_cons_ne '.' '[' rest (by decide)
  unfold isSimplePropertyPath
  rw [hsplit]
  have hstart : isIdentStart '[' = false := by decide
  simp [isIdent, hstart]

theorem matchPropertyArray_closed (C : List Char) (hne : C ≠ [])
    (hnb : C.all (fun c => ¬c = ']') = true) :
    matchPropertyArray ('[' :: (C ++ [']'])) = some C := by
  have hx : (fun c : Char => decide (¬c = ']')) ']' = false := by simp
  obtain ⟨htake, hdrop⟩ :=
    takeWhile_append_last (fun c : Char => decide (¬c = ']')) C ']' hnb hx
  show (if '[' = '[' ∧ (C ++ [']']).dropWhile (fun c => ¬c = ']') = [']'] ∧
      ¬((C ++ [']']).takeWhile (fun c => ¬c = ']')) = [] then
    some ((C ++ [']']).takeWhile (fun c => ¬c = ']'))
  else none) = some C
  rw [htake, hdrop, if_pos ⟨rfl, rfl, hne⟩]

/-- Claim C6: for every input of the property-array shape `[p1, p2, ...]`
(bracketed non-empty content with no inner closing bracket), the classifier
accepts it with pattern `property-array` and one column per comma-separated
trimmed entry, in source order, exactly when every entry matches the
simple-property-path grammar; one failing entry makes the whole input invalid
with an empty columns list. -/
theorem claim6_property_array (C : List Char) (hne : C ≠ [])
    (hnb : C.all (fun c => ¬c = ']') = true) :
    (((splitOnChar ',' C).map trimChars).all isSimplePropertyPath = true →
      analyzeListViewQuery (String.mk ('[' :: (C ++ [']']))) =
        propertyArrayResult ((splitOnChar ',' C).map trimChars)) ∧
    (((splitOnChar ',' C).map trimChars).all isSimplePropertyPath = false →
      analyzeListViewQuery (String.mk ('[' :: (C ++ [']']))) =
        notSuitableResult) := by
  cases C with
  | nil => exact absurd rfl hne
  | cons c0 C' =>
    have hc0 : ¬c0 = ']' := by
      have := List.all_eq_true.mp hnb c0 (List.mem_cons_self _ _)
      simpa using this
    have hdata : (String.mk ('[' :: ((c0 :: C') ++ [']']))).data =
        '[' :: ((c0 :: C') ++ [']']) := rfl
    have htrim : trimChars ('[' :: ((c0 :: C') ++ [']'])) =
        '[' :: ((c0 :: C') ++ [']']) :=
      trimChars_keep '[' ']' (c0 :: C') (by decide) (by decide)
    have hlater : analyzeListViewQuery (String.mk ('[' :: ((c0 :: C') ++ [']']))) =
        laterPatterns ('[' :: c0 :: (C' ++ [']'])) := by
      unfold analyzeListViewQuery
      rw [hdata, htrim]
      unfold analyzeTrimmed
      simp only [List.cons_append]
      rw [if_neg (by simp)]
      rw [matchObjectProjection_bracketed c0 (C' ++ [']']) hc0]
    have harr : matchPropertyArray ('[' :: c0 :: (C' ++ [']'])) =
        some (c0 :: C') := by
      have := matchPropertyArray_closed (c0 :: C') hne hnb
      simpa [List.cons_append] using this
    have hsp := isSimplePropertyPath_bracket (c0 :: (C' ++ [']']))
    have hlen : 0 < ((splitOnChar ',' (c0 :: C')).map trimChars).length := by
      rw [List.length_map]
      exact List.length_pos.mpr (splitOnChar_ne_nil ',' (c0 :: C'))
    constructor
    · intro hall
      rw [hlater]
      unfold laterPatterns
      rw [if_neg (by simp [hsp]), harr]
      show (if ((splitOnChar ',' (c0 :: C')).map trimChars).all isSimplePropertyPath
            = true ∧ 0 < ((splitOnChar ',' (c0 :: C')).map trimChars).length then
          propertyArrayResult ((splitOnChar ',' (c0 :: C')).map trimChars)
        else notSuitableResult) =
        propertyArrayResult ((splitOnChar ',' (c0 :: C')).map trimChars)
      rw [if_pos ⟨hall, hlen⟩]
    · intro hfail
      rw [hlater]
      unfold laterPatterns
      rw [if_neg (by simp [hsp]), harr]
      show (if ((splitOnChar ',' (c0 :: C')).map trimChars).all isSimplePropertyPath
            = true ∧ 0 < ((splitOnChar ',' (c0 :: C')).map trimChars).length then
          propertyArrayResult ((splitOnChar ',' (c0 :: C')).map trimChars)
        else notSuitableResult) = notSuitableResult
      rw [if_neg (fun h => by rw [hfail] at h; exact Bool.false_ne_true h.1)]

/-- Claim C6 witness: the theorem applied to the claim's own failing input
`[1abc]` (entry fails the identifier grammar, whole input invalid) and to the
spec's passing example `[title, status]`. -/
theorem claim6_witness :
    analyzeListViewQuery "[1abc]" = notSuitableResult ∧
    (analyzeListViewQuery "[1abc]").isValidListView = false ∧
    analyzeListViewQuery "[title, status]" =
      propertyArrayResult ["title".data, "status".data] := by
  refine ⟨?_, ?_, ?_⟩
  · exact (claim6_property_array "1abc".data (by decide) (by decide)).2 (by decide)
  · have h : analyzeListViewQuery "[1abc]" = notSuitableResult :=
      (claim6_property_array "1abc".data (by decide) (by decide)).2 (by decide)
    rw [h]
    decide
  · have h := (claim6_property_array "title, status".data (by decide)
      (by decide)).1 (by decide)
    rw [show String.mk ('[' :: ("title, status".data ++ [']'])) = "[title, status]"
      from by decide] at h
    rw [h]
    decide

/-! ## Claims C9, C2 and C7: the consistency scorer -/

/-- Claim C9: the consistency analysis is independent of its query-text
argument — `analyzeQueryResults` computes verdict, columns and reason solely
from the rows' stored json values, and its second argument is never
consulted, so any two query strings give equal results. -/
theorem claim9_query_text_ignored (rows : List Row) (q1 q2 : String) :
    analyzeQueryResults rows q1 = analyzeQueryResults rows q2 := rfl

theorem keyset_code_iff_claim (a b : List String) (ha : a.Nodup) (hb : b.Nodup) :
    (a.length = b.length ∧ ∀ x ∈ b, x ∈ a) ↔ (∀ x ∈ a, x ∈ b) ∧ (∀ x ∈ b, x ∈ a) := by
  constructor
  · rintro ⟨hlen, hsub⟩
    have hsub' : b.toFinset ⊆ a.toFinset := by
      intro y hy
      rw [List.mem_toFinset] at hy ⊢
      exact hsub y hy
    have hcard : a.toFinset.card ≤ b.toFinset.card := by
      rw [List.toFinset_card_of_nodup ha, List.toFinset_card_of_nodup hb]
      exact le_of_eq hlen
    have heq := Finset.eq_of_subset_of_card_le hsub' hcard
    refine ⟨fun x hx => ?_, hsub⟩
    rw [← List.mem_toFinset, ← heq, List.mem_toFinset] at hx
    exact hx
  · rintro ⟨h1, h2⟩
    have hfs : a.toFinset = b.toFinset := by
      apply Finset.ext
      intro x
      rw [List.mem_toFinset, List.mem_toFinset]
      exact ⟨h1 x, h2 x⟩
    refine ⟨?_, h2⟩
    rw [← List.toFinset_card_of_nodup ha, ← List.toFinset_card_of_nodup hb, hfs]

theorem contains_true_iff (l : List String) (x : String) :
    l.contains x = true ↔ x ∈ l := List.elem_iff

theorem consistentWith_eq_claim (columns : List String) (j : Json)
    (hjnd : (jsonKeys j).Nodup) (hcnd : columns.Nodup) :
    consistentWith columns j =
      (isPlainObject j && sameKeySet (jsonKeys j) columns) := by
  cases hobj : isPlainObject j with
  | false => simp [consistentWith, hobj]
  | true =>
    rw [Bool.eq_iff_iff]
    simp only [consistentWith, sameKeySet, hobj, Bool.true_and, Bool.and_eq_true,
      List.all_eq_true, contains_true_iff, decide_eq_true_eq, true_and]
    constructor
    · rintro ⟨hlen, hsub⟩
      exact (keyset_code_iff_claim _ _ hjnd hcnd).mp ⟨hlen, hsub⟩
    · rintro ⟨h1, h2⟩
      exact (keyset_code_iff_claim _ _ hjnd hcnd).mpr ⟨h1, h2⟩

theorem analyzeQueryResults_of_find (rows : List Row) (q : String) (sample : Row)
    (hfind : rows.find? (fun r => structuredJson r.json) = some sample) :
    analyzeQueryResults rows q = scoreRows rows (jsonKeys sample.json) := by
  have hmem : sample ∈ rows := List.mem_of_find?_eq_some hfind
  have hstrS : structuredJson sample.json = true := by
    have := List.find?_some hfind
    simpa using this
  have hne : rows.isEmpty = false := by
    cases rows with
    | nil => simp at hmem
    | cons a l => rfl
  have hany : rows.any (fun r => structuredJson r.json) = true :=
    List.any_eq_true.mpr ⟨sample, hmem, hstrS⟩
  unfold analyzeQueryResults
  rw [if_neg (by simp [hne]), if_neg (not_not_intro hany), hfind]

theorem structured_keys_not_empty (j : Json) (h : structuredJson j = true) :
    (jsonKeys j).isEmpty = false := by
  have := of_decide_eq_true h
  rcases this with ⟨hobj, hlen⟩
  cases hkeys : jsonKeys j with
  | nil => rw [hkeys] at hlen; simp at hlen
  | cons a l => rfl

/-- Claim C2: for a row collection with a first structured row (the sample),
`analyzeQueryResults` reports `canShowColumns = true` exactly when the number
of rows whose value is a non-array object with exactly the sample's key set,
over the total number of rows (non-structured rows included), reaches the
fixed `0.8` threshold; on failure the reason carries the percentage the
program prints — `Math.round(consistencyRatio * 100)` computed in binary64
and modelled bit-exactly by `roundPercent`.  Keys are assumed
duplicate-free, as `Object.keys` guarantees. -/
theorem claim2_consistency_threshold (rows : List Row) (q : String) (sample : Row)
    (hfind : rows.find? (fun r => structuredJson r.json) = some sample)
    (hnd : ∀ r ∈ rows, (jsonKeys r.json).Nodup) :
    ((analyzeQueryResults rows q).canShowColumns = true ↔
      4 * rows.length ≤ 5 * claimConsistentCount rows (jsonKeys sample.json)) ∧
    ((analyzeQueryResults rows q).canShowColumns = false →
      (analyzeQueryResults rows q).reason =
        some ("Only " ++ toString (roundPercent
          (claimConsistentCount rows (jsonKeys sample.json)) rows.length) ++
          "% of rows have consistent structure")) := by
  have hmem : sample ∈ rows := List.mem_of_find?_eq_some hfind
  have hstrS : structuredJson sample.json = true := by
    have := List.find?_some hfind
    simpa using this
  have hscore := analyzeQueryResults_of_find rows q sample hfind
  have hcount : (rows.filter
      (fun r => consistentWith (jsonKeys sample.json) r.json)).length =
      claimConsistentCount rows (jsonKeys sample.json) := by
    unfold claimConsistentCount
    congr 1
    apply List.filter_congr
    intro r hr
    exact consistentWith_eq_claim (jsonKeys sample.json) r.json (hnd r hr)
      (hnd sample hmem)
  rw [hscore]
  unfold scoreRows
  rw [if_neg (by rw [structured_keys_not_empty sample.json hstrS]; simp)]
  rw [hcount]
  by_cases hlt : 5 * claimConsistentCount rows (jsonKeys sample.json) <
      4 * rows.length
  · rw [if_pos hlt]
    constructor
    · constructor
      · intro h; simp at h
      · intro h; omega
    · intro _; rfl
  · rw [if_neg hlt]
    constructor
    · constructor
      · intro _; omega
      · intro _; rfl
    · intro h; simp at h

/-- Claim C2 witness: the theorem applied to ten rows of which eight share
the sample key set (ratio exactly `0.8`, showable) and to ten rows of which
only seven do (ratio `0.7`, not showable, reason `Only 70% ...`). -/
theorem claim2_witness :
    (analyzeQueryResults rowsEightOfTen "q").canShowColumns = true ∧
    (analyzeQueryResults rowsSevenOfTen "q").canShowColumns = false ∧
    (analyzeQueryResults rowsSevenOfTen "q").reason =
      some "Only 70% of rows have consistent structure" := by
  have hfind8 : rowsEightOfTen.find? (fun r => structuredJson r.json) =
      some ⟨"u1", 1, objAB⟩ := rfl
  have hfind7 : rowsSevenOfTen.find? (fun r => structuredJson r.json) =
      some ⟨"u1", 1, objAB⟩ := rfl
  have h8 := claim2_consistency_threshold rowsEightOfTen "q" ⟨"u1", 1, objAB⟩
    hfind8 (by decide)
  have h7 := claim2_consistency_threshold rowsSevenOfTen "q" ⟨"u1", 1, objAB⟩
    hfind7 (by decide)
  refine ⟨h8.1.mpr (by decide), ?_, ?_⟩
  · cases hc : (analyzeQueryResults rowsSevenOfTen "q").canShowColumns with
    | false => rfl
    | true => exact absurd (h7.1.mp hc) (by decide)
  · have hfalse : (analyzeQueryResults rowsSevenOfTen "q").canShowColumns = false := by
      cases hc : (analyzeQueryResults rowsSevenOfTen "q").canShowColumns with
      | false => rfl
      | true => exact absurd (h7.1.mp hc) (by decide)
    have := h7.2 hfalse
    rw [this]
    decide

/-- Claim C7 (amended): for every non-empty row collection, when a first
structured row (the sample) exists, the columns reported by
`analyzeQueryResults` are exactly the sample's ordered keys whenever the
verdict is showable, and the empty list whenever it is not — later rows never
contribute column names; when no row is structured the result is not showable
with reason `Query results are not structured objects`. -/
theorem claim7_first_structured_row (rows : List Row) (q : String)
    (hne : rows.isEmpty = false) :
    (∀ sample, rows.find? (fun r => structuredJson r.json) = some sample →
      ((analyzeQueryResults rows q).canShowColumns = true →
        (analyzeQueryResults rows q).columns = jsonKeys sample.json) ∧
      ((analyzeQueryResults rows q).canShowColumns = false →
        (analyzeQueryResults rows q).columns = [])) ∧
    (rows.find? (fun r => structuredJson r.json) = none →
      analyzeQueryResults rows q =
        { canShowColumns := false, columns := [],
          reason := some "Query results are not structured objects" }) := by
  constructor
  · intro sample hfind
    have hstrS : structuredJson sample.json = true := by
      have := List.find?_some hfind
      simpa using this
    rw [analyzeQueryResults_of_find rows q sample hfind]
    unfold scoreRows
    rw [if_neg (by rw [structured_keys_not_empty sample.json hstrS]; simp)]
    by_cases hlt : 5 * (rows.filter
        (fun r => consistentWith (jsonKeys sample.json) r.json)).length <
        4 * rows.length
    · rw [if_pos hlt]
      exact ⟨fun h => by simp at h, fun _ => rfl⟩
    · rw [if_neg hlt]
      exact ⟨fun _ => rfl, fun h => by simp at h⟩
  · intro hnone
    have hnostr : ∀ r ∈ rows, ¬structuredJson r.json = true := by
      intro r hr
      have := List.find?_eq_none.mp hnone r hr
      simpa using this
    unfold analyzeQueryResults
    rw [if_neg (by simp [hne]),
      if_pos (fun h => by
        obtain ⟨r, hr, hstr⟩ := List.any_eq_true.mp h
        exact hnostr r hr hstr)]

/-- Claim C7 counterexample: in a five-row collection whose first structured
row has the single key `a` while the later rows share keys `b`, `c`, the
consistency check fails and `analyzeQueryResults` reports an empty columns
list — not the first structured row's keys, refuting the claim as stated. -/
theorem claim7_counterexample :
    (rowsMixedKeys.find? (fun r => structuredJson r.json)).map
      (fun r => jsonKeys r.json) = some ["a"] ∧
    (analyzeQueryResults rowsMixedKeys "q").canShowColumns = false ∧
    (analyzeQueryResults rowsMixedKeys "q").columns = [] ∧
    ¬(analyzeQueryResults rowsMixedKeys "q").columns = ["a"] := by
  refine ⟨by decide, by decide, by decide, by decide⟩

/-- Claim C7 witness: the amended theorem applied to the showable ten-row
collection (columns are the first structured row's keys `a`, `b`) and to a
collection with no structured row (not showable, fixed reason). -/
theorem claim7_witness :
    (analyzeQueryResults rowsEightOfTen "q").columns = ["a", "b"] ∧
    analyzeQueryResults rowsUnstructured "q" =
      { canShowColumns := false, columns := [],
        reason := some "Query results are not structured objects" } := by
  constructor
  · exact ((claim7_first_structured_row rowsEightOfTen "q" (by decide)).1
      ⟨"u1", 1, objAB⟩ rfl).1 (by decide)
  · exact (claim7_first_structured_row rowsUnstructured "q" (by decide)).2 rfl

/-! ## Claims C5 and C10: batch projection -/

/-- Claim C5: batch projection over N rows returns exactly N results in input
order; the i-th result is a function of the i-th row alone (one row's failure
can neither abort the batch nor alter any other row's result), and a row
whose evaluation raises is recorded with a `null` projected value while its
original document is retained. -/
theorem claim5_batch_isolation (search : Json → String → Except String Json)
    (rows : List Row) (q : String) :
    (applyListViewQuery search rows q).length = rows.length ∧
    (∀ (i : Nat) (row : Row), rows[i]? = some row →
      (applyListViewQuery search rows q)[i]? = some (transformRow search q row)) ∧
    (∀ row err, search row.json q = Except.error err →
      transformRow search q row =
        { uuid := row.uuid, time := row.time, listViewData := none,
          originalJson := row.json }) := by
  refine ⟨List.length_map rows (transformRow search q), ?_, ?_⟩
  · intro i row hrow
    unfold applyListViewQuery
    rw [List.getElem?_map, hrow]
    rfl
  · intro row err herr
    unfold transformRow
    rw [herr]

/-- Claim C5 witness: the theorem applied to a two-row batch against an
engine that rejects every document — both results are present, in order, with
`null` projections and the original documents retained. -/
theorem claim5_witness :
    (applyListViewQuery alwaysFailingSearch projectionRows "x").length = 2 ∧
    (applyListViewQuery alwaysFailingSearch projectionRows "x")[0]? =
      some { uuid := "r1", time := 11, listViewData := none, originalJson := objAB } ∧
    (applyListViewQuery alwaysFailingSearch projectionRows "x")[1]? =
      some { uuid := "r2", time := 12, listViewData := none,
             originalJson := Json.jstr "plain" } := by
  have h := claim5_batch_isolation alwaysFailingSearch projectionRows "x"
  refine ⟨h.1, ?_, ?_⟩
  · rw [h.2.1 0 ⟨"r1", 11, objAB⟩ rfl,
      h.2.2 ⟨"r1", 11, objAB⟩ "bad expression" rfl]
  · rw [h.2.1 1 ⟨"r2", 12, Json.jstr "plain"⟩ rfl,
      h.2.2 ⟨"r2", 12, Json.jstr "plain"⟩ "bad expression" rfl]

/-- Claim C10: every batch-projection output element carries a `listViewData`
that is `null` or a non-array object — a successful evaluation yielding an
array, a primitive or `null` is also mapped to the `null` fallback — and its
`uuid`, `time` and `originalJson` are copied unchanged from the corresponding
input row. -/
theorem claim10_projection_invariants (search : Json → String → Except String Json)
    (rows : List Row) (q : String) :
    ∀ (i : Nat) (row : Row), rows[i]? = some row →
      ∃ tr, (applyListViewQuery search rows q)[i]? = some tr ∧
        tr.uuid = row.uuid ∧ tr.time = row.time ∧ tr.originalJson = row.json ∧
        (tr.listViewData = none ∨
          ∃ fields, tr.listViewData = some (Json.jobj fields)) ∧
        (∀ v, search row.json q = Except.ok v → isPlainObject v = false →
          tr.listViewData = none) := by
  intro i row hrow
  refine ⟨transformRow search q row, ?_, ?_⟩
  · unfold applyListViewQuery
    rw [List.getElem?_map, hrow]
    rfl
  · unfold transformRow
    cases hres : search row.json q with
    | error e =>
      exact ⟨by simp, by simp, by simp, Or.inl (by simp),
        fun v2 hv2 _ => absurd hv2 (by simp)⟩
    | ok v =>
      cases hobj : isPlainObject v with
      | false =>
        refine ⟨by simp [hobj], by simp [hobj], by simp [hobj],
          Or.inl (by simp [hobj]), fun _ _ _ => by simp [hobj]⟩
      | true =>
        refine ⟨by simp [hobj], by simp [hobj], by simp [hobj], Or.inr ?_, ?_⟩
        · cases v with
          | jobj fields => exact ⟨fields, by simp [isPlainObject, hobj]⟩
          | jnull => exact Bool.noConfusion hobj
          | jbool b => exact Bool.noConfusion hobj
          | jnum n => exact Bool.noConfusion hobj
          | jstr s => exact Bool.noConfusion hobj
          | jarr items => exact Bool.noConfusion hobj
        · intro v2 hv2 hobj2
          have hveq : v = v2 := by injection hv2
          rw [hveq, hobj2] at hobj
          exact Bool.noConfusion hobj

/-- Claim C10 witness: the theorem applied to an engine whose evaluation
succeeds but yields an array — the projected value falls back to `null` and
the row's identity fields are copied unchanged. -/
theorem claim10_witness :
    ∃ tr, (applyListViewQuery arrayReturningSearch projectionRows "x")[0]? =
        some tr ∧
      tr.listViewData = none ∧ tr.uuid = "r1" ∧ tr.time = 11 ∧
      tr.originalJson = objAB := by
  obtain ⟨tr, hget, huuid, htime, horig, _, hnonobj⟩ :=
    claim10_projection_invariants arrayReturningSearch projectionRows "x" 0
      ⟨"r1", 11, objAB⟩ rfl
  exact ⟨tr, hget, hnonobj (Json.jarr []) rfl rfl, huuid, htime, horig⟩

/-! ## Claims C3 and C8: the list-view registry reads -/

/-- Claim C3 (amended): for a successful listing, `getListViewQuery` returns
the first definition flagged `listView` in the stored order (`null` when none
is flagged) and never raises; when more than one definition is flagged it
emits exactly one conflict warning, which names the schema and the *kept*
definition — the discarded duplicates are not named. -/
theorem claim3_get_list_view (schemaName : String) (qs : List QueryDefinition) :
    (getListViewQuery schemaName (Except.ok qs)).1 =
      (qs.filter (fun v => v.listView)).head? ∧
    ((qs.filter (fun v => v.listView)).length ≤ 1 →
      (getListViewQuery schemaName (Except.ok qs)).2 = []) ∧
    (∀ first rest, qs.filter (fun v => v.listView) = first :: rest →
      0 < rest.length →
      (getListViewQuery schemaName (Except.ok qs)).2 =
        [multipleListViewWarn schemaName first.name]) := by
  have hok : getListViewQuery schemaName (Except.ok qs) =
      getListViewQueryOk schemaName qs := rfl
  rw [hok]
  cases hf : qs.filter (fun v => v.listView) with
  | nil =>
    have hnil : getListViewQueryOk schemaName qs = (none, []) := by
      unfold getListViewQueryOk
      rw [hf]
    rw [hnil]
    exact ⟨rfl, fun _ => rfl, fun first rest h => absurd h (by simp)⟩
  | cons f r =>
    have hcons : getListViewQueryOk schemaName qs =
        if 0 < r.length then (some f, [multipleListViewWarn schemaName f.name])
        else (some f, []) := by
      unfold getListViewQueryOk
      rw [hf]
    rw [hcons]
    by_cases hr : 0 < r.length
    · refine ⟨by rw [if_pos hr]; rfl, ?_, ?_⟩
      · intro hlen
        rw [List.length_cons] at hlen
        omega
      · intro first rest heq hrest
        injection heq with h1 h2
        rw [if_pos hr, h1]
    · refine ⟨by rw [if_neg hr]; rfl, fun _ => by rw [if_neg hr], ?_⟩
      intro first rest heq hrest
      injection heq with h1 h2
      rw [h2] at hr
      exact absurd hrest hr

/-- Claim C3 counterexample: with two flagged definitions `Q1` and `Zed`,
the emitted conflict warning names the kept definition `Q1` but does not
contain the discarded duplicate's name `Zed` anywhere, refuting the claim
that the warning names the discarded duplicates. -/
theorem claim3_counterexample :
    getListViewQuery "TestSchema" (Except.ok [queryQ1, queryZed]) =
      (some queryQ1,
        ["Schema \"TestSchema\" has multiple list view queries, using the first one: \"Q1\""]) ∧
    containsSub "Zed".data
      ("Schema \"TestSchema\" has multiple list view queries, using the first one: \"Q1\"").data
      = false ∧
    containsSub "Q1".data
      ("Schema \"TestSchema\" has multiple list view queries, using the first one: \"Q1\"").data
      = true := by
  refine ⟨by decide, by decide, by decide⟩

/-- Claim C3 witness: the amended theorem applied to a store with no flagged
definition (`null`), and to a store with two flagged definitions (the first
one is returned and a single warning naming it is emitted). -/
theorem claim3_witness :
    (getListViewQuery "S" (Except.ok [queryPlain])).1 = none ∧
    (getListViewQuery "S" (Except.ok [queryQ1, queryZed])).1 = some queryQ1 ∧
    (getListViewQuery "S" (Except.ok [queryQ1, queryZed])).2 =
      [multipleListViewWarn "S" "Q1"] := by
  refine ⟨?_, ?_, ?_⟩
  · rw [(claim3_get_list_view "S" [queryPlain]).1]
    decide
  · rw [(claim3_get_list_view "S" [queryQ1, queryZed]).1]
    decide
  · exact (claim3_get_list_view "S" [queryQ1, queryZed]).2.2 queryQ1 [queryZed]
      (by decide) (by decide)

/-- Claim C8 (amended): when the backing-store read fails during
`getListViewQuery` or `checkExistingListView`, the rejection is caught inside
the operation: a warning naming the failure is logged and `null` is returned
— indistinguishable from a normal "no list view" result — and the listing is
consumed exactly once, with no retry. -/
theorem claim8_store_error_swallowed (schemaName e : String) :
    getListViewQuery schemaName (Except.error e) =
      (none, ["Failed to get list view query: " ++ e]) ∧
    checkExistingListView (Except.error e) =
      (none, ["Failed to check existing list view queries: " ++ e]) :=
  ⟨rfl, rfl⟩

/-- Claim C8 counterexample: a failing backing-store read is not propagated —
`getListViewQuery` and `checkExistingListView` both swallow the error and
return `null`, and `getListViewQuery`'s result value is identical to the one
for a successfully-read store with no flagged definition, refuting the claim
that the failure is surfaced as a typed failure rather than a normal "no list
view" result. -/
theorem claim8_counterexample :
    (getListViewQuery "S" (Except.error "store unavailable")).1 = none ∧
    (checkExistingListView (Except.error "store unavailable")).1 = none ∧
    (getListViewQuery "S" (Except.error "store unavailable")).1 =
      (getListViewQuery "S" (Except.ok [])).1 := by
  refine ⟨by decide, by decide, by decide⟩

/-! ## Claim C4: the set-as-list-view protocol -/

theorem setListViewWrites_cases (q : QueryDefinition) (ra : Bool)
    (listed : Except String (List QueryDefinition)) (co : Except String Unit)
    (pre : List SLVEvent) :
    setListViewWrites q ra listed co pre =
        pre ++ [SLVEvent.lookedUpExisting, SLVEvent.write q.queryId true] ∨
    (setListViewWrites q ra listed co pre =
        pre ++ [SLVEvent.lookedUpExisting, SLVEvent.replaceConfirm ra] ∧
      ra = false) ∨
    (∃ ex, (checkExistingListView listed).1 = some ex ∧
      ¬ex.queryId = q.queryId ∧ ra = true ∧
      (setListViewWrites q ra listed co pre =
          pre ++ [SLVEvent.lookedUpExisting, SLVEvent.replaceConfirm ra,
            SLVEvent.write ex.queryId false] ∨
       setListViewWrites q ra listed co pre =
          pre ++ [SLVEvent.lookedUpExisting, SLVEvent.replaceConfirm ra,
            SLVEvent.write ex.queryId false, SLVEvent.write q.queryId true])) := by
  cases hex : (checkExistingListView listed).1 with
  | none =>
    left
    unfold setListViewWrites
    rw [hex]
  | some ex =>
    have h0 : setListViewWrites q ra listed co pre =
        setWritesWithExisting q ra co ex pre := by
      unfold setListViewWrites
      rw [hex]
    rw [h0]
    unfold setWritesWithExisting
    by_cases heq : ¬ex.queryId = q.queryId
    · rw [if_pos heq]
      cases hra : ra with
      | false =>
        rw [if_neg (by simp)]
        exact Or.inr (Or.inl ⟨rfl, rfl⟩)
      | true =>
        rw [if_pos rfl]
        unfold replaceWrites
        cases co with
        | error e => exact Or.inr (Or.inr ⟨ex, rfl, heq, rfl, Or.inl rfl⟩)
        | ok u => exact Or.inr (Or.inr ⟨ex, rfl, heq, rfl, Or.inr rfl⟩)
    · rw [if_neg heq]
      exact Or.inl rfl

theorem traceWrites_append (xs ys : List SLVEvent) :
    traceWrites (xs ++ ys) = traceWrites xs ++ traceWrites ys := by
  unfold traceWrites
  exact List.filterMap_append xs ys _

theorem setListViewWrites_props (q : QueryDefinition) (ra : Bool)
    (listed : Except String (List QueryDefinition)) (co : Except String Unit)
    (pre : List SLVEvent) (hpre : traceWrites pre = []) :
    (∀ a rest, pre = a :: rest →
      (setListViewWrites q ra listed co pre).head? = some a) ∧
    SLVEvent.lookedUpExisting ∈ setListViewWrites q ra listed co pre ∧
    (∀ x, (x, false) ∈ traceWrites (setListViewWrites q ra listed co pre) →
      ra = true ∧
      SLVEvent.replaceConfirm true ∈ setListViewWrites q ra listed co pre ∧
      ∃ ex, (checkExistingListView listed).1 = some ex ∧ ex.queryId = x ∧
        ¬ex.queryId = q.queryId) ∧
    clearsBeforeSets (traceWrites (setListViewWrites q ra listed co pre))
      = true := by
  rcases setListViewWrites_cases q ra listed co pre with
    hsh | ⟨hsh, hra⟩ | ⟨ex, hex, hne, hra, hsh | hsh⟩
  · rw [hsh]
    have htw : traceWrites (pre ++
        [SLVEvent.lookedUpExisting, SLVEvent.write q.queryId true]) =
        [(q.queryId, true)] := by
      rw [traceWrites_append, hpre]
      rfl
    rw [htw]
    refine ⟨fun a rest hp => by rw [hp]; rfl, by simp, ?_, by rfl⟩
    intro x hx
    rw [List.mem_singleton, Prod.mk.injEq] at hx
    exact absurd hx.2 (by simp)
  · rw [hsh]
    have htw : traceWrites (pre ++
        [SLVEvent.lookedUpExisting, SLVEvent.replaceConfirm ra]) = [] := by
      rw [traceWrites_append, hpre]
      rfl
    rw [htw]
    exact ⟨fun a rest hp => by rw [hp]; rfl, by simp, fun x hx => absurd hx (by simp),
      rfl⟩
  · rw [hsh, hra]
    have htw : traceWrites (pre ++
        [SLVEvent.lookedUpExisting, SLVEvent.replaceConfirm true,
         SLVEvent.write ex.queryId false]) = [(ex.queryId, false)] := by
      rw [traceWrites_append, hpre]
      rfl
    rw [htw]
    refine ⟨fun a rest hp => by rw [hp]; rfl, by simp, ?_, by rfl⟩
    intro x hx
    rw [List.mem_singleton, Prod.mk.injEq] at hx
    exact ⟨rfl, by simp, ex, hex, hx.1.symm, hne⟩
  · rw [hsh, hra]
    have htw : traceWrites (pre ++
        [SLVEvent.lookedUpExisting, SLVEvent.replaceConfirm true,
         SLVEvent.write ex.queryId false, SLVEvent.write q.queryId true]) =
        [(ex.queryId, false), (q.queryId, true)] := by
      rw [traceWrites_append, hpre]
      rfl
    rw [htw]
    refine ⟨fun a rest hp => by rw [hp]; rfl, by simp, ?_, by rfl⟩
    intro x hx
    rw [List.mem_cons, List.mem_singleton, Prod.mk.injEq, Prod.mk.injEq] at hx
    rcases hx with hx | hx
    · exact ⟨rfl, by simp, ex, hex, hx.1.symm, hne⟩
    · exact absurd hx.2 (by simp)

/-- Claim C4: in every run of the set-as-list-view protocol the
classification of the candidate comes first; when classification fails and
the operator does not confirm, no write is issued at all; any write is
preceded by the lookup of the current flag holder; a clearing write occurs
only when the lookup found a different holder and the operator explicitly
confirmed the replacement; and a clearing write never occurs after the
setting write. -/
theorem claim4_set_list_view_protocol (q : QueryDefinition)
    (proceedAnyway replaceAnswer : Bool)
    (listed : Except String (List QueryDefinition))
    (clearOutcome : Except String Unit) :
    (showSetListView q proceedAnyway replaceAnswer listed clearOutcome).head? =
      some (SLVEvent.classified
        (analyzeListViewQuery q.JMESPathQuery).isValidListView) ∧
    ((analyzeListViewQuery q.JMESPathQuery).isValidListView = false →
      proceedAnyway = false →
      traceWrites (showSetListView q proceedAnyway replaceAnswer listed
        clearOutcome) = []) ∧
    (traceWrites (showSetListView q proceedAnyway replaceAnswer listed
        clearOutcome) ≠ [] →
      SLVEvent.lookedUpExisting ∈
        showSetListView q proceedAnyway replaceAnswer listed clearOutcome) ∧
    (∀ x, (x, false) ∈ traceWrites (showSetListView q proceedAnyway
        replaceAnswer listed clearOutcome) →
      replaceAnswer = true ∧
      SLVEvent.replaceConfirm true ∈
        showSetListView q proceedAnyway replaceAnswer listed clearOutcome ∧
      ∃ ex, (checkExistingListView listed).1 = some ex ∧ ex.queryId = x ∧
        ¬ex.queryId = q.queryId) ∧
    clearsBeforeSets (traceWrites (showSetListView q proceedAnyway
      replaceAnswer listed clearOutcome)) = true := by
  by_cases hv : (analyzeListViewQuery q.JMESPathQuery).isValidListView = true
  · have htr : showSetListView q proceedAnyway replaceAnswer listed clearOutcome =
        setListViewWrites q replaceAnswer listed clearOutcome
          [SLVEvent.classified
            (analyzeListViewQuery q.JMESPathQuery).isValidListView] := by
      unfold showSetListView
      rw [if_pos hv]
    obtain ⟨hhead, hmem, hclear, hcbs⟩ :=
      setListViewWrites_props q replaceAnswer listed clearOutcome
        [SLVEvent.classified
          (analyzeListViewQuery q.JMESPathQuery).isValidListView] rfl
    rw [htr]
    exact ⟨hhead _ [] rfl, fun h1 _ => absurd hv (by rw [h1]; simp),
      fun _ => hmem, hclear, hcbs⟩
  · by_cases hpa : proceedAnyway = true
    · have htr : showSetListView q proceedAnyway replaceAnswer listed clearOutcome =
          setListViewWrites q replaceAnswer listed clearOutcome
            [SLVEvent.classified
              (analyzeListViewQuery q.JMESPathQuery).isValidListView,
             SLVEvent.invalidConfirm proceedAnyway] := by
        unfold showSetListView
        rw [if_neg hv, if_pos hpa]
      obtain ⟨hhead, hmem, hclear, hcbs⟩ :=
        setListViewWrites_props q replaceAnswer listed clearOutcome
          [SLVEvent.classified
            (analyzeListViewQuery q.JMESPathQuery).isValidListView,
           SLVEvent.invalidConfirm proceedAnyway] rfl
      rw [htr]
      exact ⟨hhead _ [SLVEvent.invalidConfirm proceedAnyway] rfl,
        fun _ h2 => absurd hpa (by rw [h2]; simp),
        fun _ => hmem, hclear, hcbs⟩
    · have htr : showSetListView q proceedAnyway replaceAnswer listed clearOutcome =
          [SLVEvent.classified
            (analyzeListViewQuery q.JMESPathQuery).isValidListView,
           SLVEvent.invalidConfirm proceedAnyway] := by
        unfold showSetListView
        rw [if_neg hv, if_neg hpa]
      rw [htr]
      refine ⟨rfl, fun _ _ => rfl, fun h => absurd rfl h, ?_, rfl⟩
      intro x hx
      exact absurd hx (by simp [traceWrites])

/-- Claim C4 witness: a full replace run with a valid candidate against a
store holding a different flagged definition — the trace is classification,
lookup, confirmation, the clearing write, then the setting write, and the
clears-before-sets check holds; an invalid candidate without operator
confirmation issues no writes. -/
theorem claim4_witness :
    showSetListView candidateQuery false true (Except.ok [queryQ1])
      (Except.ok ()) =
      [SLVEvent.classified true, SLVEvent.lookedUpExisting,
       SLVEvent.replaceConfirm true, SLVEvent.write "id1" false,
       SLVEvent.write "idc" true] ∧
    clearsBeforeSets (traceWrites (showSetListView candidateQuery false true
      (Except.ok [queryQ1]) (Except.ok ()))) = true ∧
    traceWrites (showSetListView invalidCandidateQuery false true
      (Except.ok [queryQ1]) (Except.ok ())) = [] := by
  refine ⟨by decide, ?_, ?_⟩
  · exact (claim4_set_list_view_protocol candidateQuery false true
      (Except.ok [queryQ1]) (Except.ok ())).2.2.2.2
  · exact (claim4_set_list_view_protocol invalidCandidateQuery false true
      (Except.ok [queryQ1]) (Except.ok ())).2.1 (by decide) rfl

end SchemaSheets
